import Mathlib

set_option maxRecDepth 100000

/-!
Verification of the fuzz-exporter metrics program (src/main.rs).

The file embeds, as executable Lean functions over `List Char`:
* the two winnow line grammars `parse_fork_mode` (Format A, "forked/global"
  output) and `parse_job_mode` (Format B, "per-job reload" output),
* the full-input entry points `Parsed::from_log` / `Parsed::from_log_job`,
* the per-source job record and its reader step,
* the 1-second aggregator tick (max/sum reduction over u32 fields) and the
  journal-mode per-line gauge publication.

Machine integers are modelled as `Nat` with explicit bounds: winnow's
`dec_uint` into `u32`/`u64` fails on overflow, so the embedded `decUint`
carries the corresponding maximum; the only wrapping operations in the
program (the `u64` multiply for the corpus size and the `u32` iterator sum
in the aggregator) take an explicit `% 2^64` / `% 2^32`.
-/

/-- The `Parsed` struct of src/main.rs (all fields `u32` except the
`u64` field `corp_size`), modelled with `Nat` fields. -/
structure Parsed where
  cov : Nat
  ft : Nat
  corp : Nat
  corp_size : Nat
  exec_s : Nat
  oom : Nat
  timeout : Nat
  crash : Nat
  time : Nat
deriving DecidableEq, Repr

/-- Sequencing of fallible parse steps (`Option` bind, written out so the
nested grammars below elaborate directly). -/
def obind {α β : Type} (x : Option α) (f : α → Option β) : Option β :=
  match x with
  | none => none
  | some v => f v

/-- Maximum value of a Rust `u32`. -/
def u32mx : Nat := 4294967295

/-- Maximum value of a Rust `u64`. -/
def u64mx : Nat := 18446744073709551615

/-- The characters accepted by winnow's `space1` (space and tab). -/
def wsChar (c : Char) : Bool := c == ' ' || c == '\t'

/-- winnow `space1`: one or more space/tab characters. -/
def space1 (s : List Char) : Option (Unit × List Char) :=
  match s with
  | [] => none
  | c :: cs => if wsChar c then some ((), cs.dropWhile wsChar) else none

/-- Numeric value of a decimal digit character. -/
def digitVal (c : Char) : Nat := c.toNat - 48

/-- Value of a run of decimal digit characters (most significant first). -/
def digitsVal (cs : List Char) : Nat := cs.foldl (fun a c => a * 10 + digitVal c) 0

/-- winnow `dec_uint` into an unsigned type with maximum `mx`: one or more
decimal digits, failing when the value overflows the target type. -/
def decUint (mx : Nat) (s : List Char) : Option (Nat × List Char) :=
  let ds := s.takeWhile Char.isDigit
  if ds = [] then none
  else if digitsVal ds ≤ mx then some (digitsVal ds, s.dropWhile Char.isDigit) else none

/-- winnow literal token parser: matches `t` exactly at the current position. -/
def pstr (t : List Char) (s : List Char) : Option (Unit × List Char) :=
  if t.isPrefixOf s then some ((), s.drop t.length) else none

/-- winnow single-character literal parser. -/
def pchar (c : Char) (s : List Char) : Option (Unit × List Char) :=
  match s with
  | [] => none
  | x :: xs => if x == c then some ((), xs) else none

/-- winnow `take_until(0.., t)`: consume everything strictly before the first
occurrence of `t`, leaving the input positioned at that occurrence; fails when
`t` does not occur. -/
def takeUntil (t : List Char) : List Char → Option (List Char × List Char)
  | [] => if t.isPrefixOf [] then some ([], []) else none
  | c :: cs =>
    if t.isPrefixOf (c :: cs) then some ([], c :: cs)
    else (takeUntil t cs).map (fun p => (c :: p.1, p.2))

def covTok : List Char := ['c', 'o', 'v', ':']
def ftTok : List Char := ['f', 't', ':']
def corpTok : List Char := ['c', 'o', 'r', 'p', ':']
def execTok : List Char := ['e', 'x', 'e', 'c', '/', 's']
def execColonTok : List Char := ['e', 'x', 'e', 'c', '/', 's', ':']
def oomTok : List Char :=
  ['o', 'o', 'm', '/', 't', 'i', 'm', 'e', 'o', 'u', 't', '/', 'c', 'r', 'a', 's', 'h', ':']
def timeTok : List Char := ['t', 'i', 'm', 'e', ':']
def kbTok : List Char := ['K', 'b']
def mbTok : List Char := ['M', 'b']
def bTok : List Char := ['b']

/-- The `alt((("exec/s", space1), ("exec/s:", space1)))` combinator of
`parse_fork_mode`: either branch is tried in full and backtracks on failure. -/
def execSep (s : List Char) : Option (Unit × List Char) :=
  match obind (pstr execTok s) (fun x => space1 x.2) with
  | some r => some r
  | none => obind (pstr execColonTok s) (fun x => space1 x.2)

/-- `parse_fork_mode` of src/main.rs: Format A, anchored at the first `cov:`;
the final `rest.void()` consumes the remainder of the line. -/
def parse_fork_mode (s0 : List Char) : Option (Parsed × List Char) :=
  obind (takeUntil covTok s0) fun a1 =>
  obind (pstr covTok a1.2) fun a2 =>
  obind (space1 a2.2) fun a3 =>
  obind (decUint u32mx a3.2) fun cv =>
  obind (space1 cv.2) fun b1 =>
  obind (pstr ftTok b1.2) fun b2 =>
  obind (space1 b2.2) fun ftv =>
  obind (decUint u32mx ftv.2) fun ftn =>
  obind (space1 ftn.2) fun c1 =>
  obind (pstr corpTok c1.2) fun c2 =>
  obind (space1 c2.2) fun c3 =>
  obind (decUint u32mx c3.2) fun cp =>
  obind (space1 cp.2) fun d1 =>
  obind (execSep d1.2) fun d2 =>
  obind (decUint u32mx d2.2) fun ex =>
  obind (space1 ex.2) fun e1 =>
  obind (pstr oomTok e1.2) fun e2 =>
  obind (space1 e2.2) fun e3 =>
  obind (decUint u32mx e3.2) fun om =>
  obind (pchar '/' om.2) fun f1 =>
  obind (decUint u32mx f1.2) fun tm =>
  obind (pchar '/' tm.2) fun f2 =>
  obind (decUint u32mx f2.2) fun cr =>
  obind (space1 cr.2) fun g1 =>
  obind (pstr timeTok g1.2) fun g2 =>
  obind (space1 g2.2) fun g3 =>
  obind (decUint u32mx g3.2) fun ti =>
  obind (pchar 's' ti.2) fun _h =>
  some (⟨cv.1, ftn.1, cp.1, 0, ex.1, om.1, tm.1, cr.1, ti.1⟩, [])

/-- The `alt(("Kb".value(1024), "Mb".value(1024*1024), "b".value(1)))` unit
parser of `parse_job_mode`. -/
def unitMul (s : List Char) : Option (Nat × List Char) :=
  match pstr kbTok s with
  | some x => some (1024, x.2)
  | none =>
    match pstr mbTok s with
    | some x => some (1048576, x.2)
    | none =>
      match pstr bTok s with
      | some x => some (1, x.2)
      | none => none

/-- The `/<size><unit>` corpus-size suffix of `parse_job_mode`; the Rust
`n * unit` is a `u64` multiplication, hence the explicit `% 2^64`. -/
def corpSuffix (s : List Char) : Option (Nat × List Char) :=
  obind (pchar '/' s) fun _x1 =>
  obind (decUint u64mx _x1.2) fun n =>
  obind (unitMul n.2) fun u =>
  some (n.1 * u.1 % 18446744073709551616, u.2)

/-- `parse_job_mode` of src/main.rs: Format B; the `opt(...)` around the
corpus-size suffix backtracks to `none`, `.unwrap_or(0)` becomes `getD 0`,
and fields between `corp:` and the literal `exec/s:` are skipped by
`take_until`. -/
def parse_job_mode (s0 : List Char) : Option (Parsed × List Char) :=
  obind (takeUntil covTok s0) fun a1 =>
  obind (pstr covTok a1.2) fun a2 =>
  obind (space1 a2.2) fun a3 =>
  obind (decUint u32mx a3.2) fun cv =>
  obind (space1 cv.2) fun b1 =>
  obind (pstr ftTok b1.2) fun b2 =>
  obind (space1 b2.2) fun ftv =>
  obind (decUint u32mx ftv.2) fun ftn =>
  obind (space1 ftn.2) fun c1 =>
  obind (pstr corpTok c1.2) fun c2 =>
  obind (space1 c2.2) fun c3 =>
  obind (decUint u32mx c3.2) fun cp =>
  obind (match corpSuffix cp.2 with
   | some x => some (some x.1, x.2)
   | none => some ((none : Option Nat), cp.2)) fun sz =>
  obind (takeUntil execColonTok sz.2) fun d1 =>
  obind (pstr execColonTok d1.2) fun d2 =>
  obind (space1 d2.2) fun d3 =>
  obind (decUint u32mx d3.2) fun ex =>
  some (⟨cv.1, ftn.1, cp.1, (sz.1).getD 0, ex.1, 0, 0, 0, 0⟩, [])

/-- `Parsed::from_log`: `parse_fork_mode.parse(log)` — winnow's `parse`
additionally requires the whole input to be consumed. -/
def fromLog (s : List Char) : Option Parsed :=
  obind (parse_fork_mode s) fun r => if r.2 = [] then some r.1 else none

/-- `Parsed::from_log_job`: `parse_job_mode.parse(log)`. -/
def fromLogJob (s : List Char) : Option Parsed :=
  obind (parse_job_mode s) fun r => if r.2 = [] then some r.1 else none

/-- The `JobStatus` struct: the atomic per-source record (u32 fields plus the
u64 `corp_size`), with the atomics' contents modelled as plain `Nat`s. -/
structure JobStatus where
  cov : Nat
  ft : Nat
  corp : Nat
  exec_s : Nat
  corp_size : Nat
deriving DecidableEq, Repr

/-- `JobStatus::update`: store every field of the parsed record. -/
def JobStatus.update (_j : JobStatus) (p : Parsed) : JobStatus :=
  ⟨p.cov, p.ft, p.corp, p.exec_s, p.corp_size⟩

/-- One iteration of the multi-source reader loop (src/main.rs lines 67-72):
a line that fails `Parsed::from_log_job` is skipped via `continue`, leaving
the job record untouched; a parsed line replaces the record's fields. -/
def readerStep (j : JobStatus) (line : List Char) : JobStatus :=
  match fromLogJob line with
  | none => j
  | some p => j.update p

/-- `.max().unwrap_or(0)` over a list of `u32` values. -/
def maxOr0 (l : List Nat) : Nat := l.foldl max 0

/-- `.sum::<u32>()`: wrapping `u32` summation (release-mode semantics),
modelled with an explicit `% 2^32` at each addition. -/
def sumU32 (l : List Nat) : Nat := l.foldl (fun a b => (a + b) % 4294967296) 0

def aggCov (jobs : List JobStatus) : Nat := maxOr0 (jobs.map JobStatus.cov)
def aggFt (jobs : List JobStatus) : Nat := maxOr0 (jobs.map JobStatus.ft)
def aggCorp (jobs : List JobStatus) : Nat := maxOr0 (jobs.map JobStatus.corp)
def aggExec (jobs : List JobStatus) : Nat := sumU32 (jobs.map JobStatus.exec_s)
def aggCorpSize (jobs : List JobStatus) : Nat := maxOr0 (jobs.map JobStatus.corp_size)

/-- One tick of the aggregator loop (src/main.rs lines 94-101): the gauge
names and reduced values published by the five `update_metric!` calls, in
program order. -/
def tick (jobs : List JobStatus) : List (String × Nat) :=
  [("fuzz_cov", aggCov jobs),
   ("fuzz_feat", aggFt jobs),
   ("fuzz_corp", aggCorp jobs),
   ("fuzz_exec_s", aggExec jobs),
   ("fuzz_corp_size", aggCorpSize jobs)]

/-- The gauges set for one parsed line of journal (single-source) mode
(src/main.rs lines 126-133), in program order. -/
def journalPublish (p : Parsed) : List (String × Nat) :=
  [("fuzz_cov", p.cov),
   ("fuzz_feat", p.ft),
   ("fuzz_corp", p.corp),
   ("fuzz_exec_s", p.exec_s),
   ("fuzz_oom", p.oom),
   ("fuzz_timeout", p.timeout),
   ("fuzz_crash", p.crash),
   ("fuzz_time", p.time)]

/-- One iteration of the journal-mode loop body (src/main.rs lines 124-134):
gauges set for the line, or nothing when the line does not parse. -/
def journalStep (line : List Char) : List (String × Nat) :=
  match fromLog line with
  | none => []
  | some p => journalPublish p

/-- Fuel-driven digit rendering (structural recursion, so that concrete
numerals evaluate inside the kernel). -/
def natReprAux : Nat → Nat → List Char
  | 0, _ => []
  | fuel + 1, n =>
    if n < 10 then [Char.ofNat (48 + n)]
    else natReprAux fuel (n / 10) ++ [Char.ofNat (48 + n % 10)]

/-- Decimal rendering of a natural number, used to state the grammar theorems
over arbitrary embedded numbers. -/
def natRepr (n : Nat) : List Char := natReprAux (n + 1) n

/-- Head-character test: `true` when the list is empty or its first character
does not satisfy `b`. -/
def headOk (b : Char → Bool) : List Char → Bool
  | [] => true
  | c :: _ => !b c

/-- A well-formed Format A line: arbitrary prefix `p`, the anchored fields
with single-space separation, the `exec/s` separator text `xsep` (with or
without colon, including its trailing space), and arbitrary trailing text
`tr` after the `s` of the time field. -/
def lineFork (p : List Char) (c f k : Nat) (xsep : List Char) (e o t cr ti : Nat)
    (tr : List Char) : List Char :=
  p ++ covTok ++ [' '] ++ natRepr c ++ [' '] ++ ftTok ++ [' '] ++ natRepr f ++ [' '] ++
    corpTok ++ [' '] ++ natRepr k ++ [' '] ++ xsep ++ natRepr e ++ [' '] ++ oomTok ++
    [' '] ++ natRepr o ++ ['/'] ++ natRepr t ++ ['/'] ++ natRepr cr ++ [' '] ++
    timeTok ++ [' '] ++ natRepr ti ++ ['s'] ++ tr

/-- A well-formed Format B line: arbitrary prefix `p`, the anchored
`cov`/`ft`/`corp` fields, an optional corpus-size suffix text `sfx` directly
after the corpus count, skipped text `filler` up to the literal `exec/s:`,
and trailing text `tr` after the exec/s value. -/
def lineJob (p : List Char) (c f k : Nat) (sfx filler : List Char) (e : Nat)
    (tr : List Char) : List Char :=
  p ++ covTok ++ [' '] ++ natRepr c ++ [' '] ++ ftTok ++ [' '] ++ natRepr f ++ [' '] ++
    corpTok ++ [' '] ++ natRepr k ++ sfx ++ filler ++ execColonTok ++ [' '] ++
    natRepr e ++ tr

/-- The documented Format A example line (src/main.rs line 140 and test). -/
def exampleLineA : List Char :=
  ("Feb 20 08:24:30 test-server-1 cargo[117394]: #2903021619: cov: 2163 ft: 20854 corp: 2853 exec/s: 1464 oom/timeout/crash: 0/0/0 time: 56383s job: 6125 dft_time: 0").toList

/-- The second Format A test line (`exec/s` without colon). -/
def exampleLineA2 : List Char :=
  ("Feb 24 16:30:28 test-server-1 cargo[478967]: #190817895: cov: 400 ft: 7911 corp: 1901 exec/s 24015 oom/timeout/crash: 0/0/0 time: 252s job: 110 dft_time: 0").toList

/-- The documented Format B example line (src/main.rs line 201 and test). -/
def exampleLineB : List Char :=
  ("RELOAD cov: 641 ft: 9191 corp: 1640/591Kb lim: 2411 exec/s: 529 rss: 36Mb").toList

/-- The Format B example line with a malformed `Gb` unit suffix. -/
def exampleLineGb : List Char :=
  ("RELOAD cov: 641 ft: 9191 corp: 1640/591Gb lim: 2411 exec/s: 529 rss: 36Mb").toList

/-! ### Basic facts about the parsing primitives -/

theorem natReprAux_congr :
    ∀ fuel1 fuel2 n : Nat, n < fuel1 → n < fuel2 →
      natReprAux fuel1 n = natReprAux fuel2 n := by
  intro fuel1
  induction fuel1 with
  | zero => intro fuel2 n h1 _; omega
  | succ f1 ih =>
    intro fuel2 n h1 h2
    cases fuel2 with
    | zero => omega
    | succ f2 =>
      simp only [natReprAux]
      split
      · rfl
      · next hn =>
        rw [ih f2 (n / 10) (by omega) (by omega)]

theorem natRepr_unfold (n : Nat) :
    natRepr n = if n < 10 then [Char.ofNat (48 + n)]
      else natRepr (n / 10) ++ [Char.ofNat (48 + n % 10)] := by
  show natReprAux (n + 1) n = _
  simp only [natReprAux]
  split
  · rfl
  · next hn =>
    rw [natReprAux_congr n (n / 10 + 1) (n / 10) (by omega) (by omega)]
    rfl

theorem obind_some {α β : Type} (a : α) (f : α → Option β) : obind (some a) f = f a := rfl

theorem obind_none {α β : Type} (f : α → Option β) : obind none f = none := rfl

theorem obind_eq_some {α β : Type} {x : Option α} {f : α → Option β} {b : β} :
    obind x f = some b ↔ ∃ a, x = some a ∧ f a = some b := by
  cases x <;> simp [obind]

theorem pstr_self (t r : List Char) : pstr t (t ++ r) = some ((), r) := by
  have h : t.isPrefixOf (t ++ r) = true :=
    List.isPrefixOf_iff_prefix.2 (List.prefix_append t r)
  simp [pstr, h]

theorem pchar_self (c : Char) (r : List Char) : pchar c (c :: r) = some ((), r) := by
  simp [pchar]

theorem space1_one (r : List Char) (h : headOk wsChar r = true) :
    space1 (' ' :: r) = some ((), r) := by
  cases r with
  | nil => simp [space1, wsChar]
  | cons c cs =>
    have hc : wsChar c = false := by
      simpa [headOk] using h
    have hsp : wsChar ' ' = true := rfl
    simp [space1, List.dropWhile_cons, hc, hsp]

theorem digitChar_isDigit (d : Nat) (h : d < 10) : (Char.ofNat (48 + d)).isDigit = true := by
  interval_cases d <;> decide

theorem digitChar_val (d : Nat) (h : d < 10) : digitVal (Char.ofNat (48 + d)) = d := by
  interval_cases d <;> decide

theorem natRepr_ne_nil (n : Nat) : natRepr n ≠ [] := by
  rw [natRepr_unfold]
  split <;> simp

theorem natRepr_digits (n : Nat) : ∀ c ∈ natRepr n, c.isDigit = true := by
  induction n using Nat.strong_induction_on with
  | _ n ih =>
    rw [natRepr_unfold]
    split
    · next h =>
      intro c hc
      simp only [List.mem_singleton] at hc
      subst hc
      exact digitChar_isDigit n h
    · next h =>
      intro c hc
      rcases List.mem_append.1 hc with h1 | h1
      · exact ih (n / 10) (Nat.div_lt_self (by omega) (by omega)) c h1
      · simp only [List.mem_singleton] at h1
        subst h1
        exact digitChar_isDigit (n % 10) (Nat.mod_lt _ (by omega))

theorem digitsVal_gen (n : Nat) :
    ∀ a : Nat, (natRepr n).foldl (fun x c => x * 10 + digitVal c) a
      = a * 10 ^ (natRepr n).length + n := by
  induction n using Nat.strong_induction_on with
  | _ n ih =>
    intro a
    rw [natRepr_unfold]
    split
    · next h =>
      simp [List.foldl, digitChar_val n h]
    · next h =>
      rw [List.foldl_append, ih (n / 10) (Nat.div_lt_self (by omega) (by omega)) a]
      simp only [List.foldl, List.length_append, List.length_cons, List.length_nil]
      rw [digitChar_val (n % 10) (Nat.mod_lt _ (by omega))]
      rw [Nat.add_mul, pow_succ]
      have hdm : n / 10 * 10 + n % 10 = n := by omega
      rw [Nat.add_assoc, hdm, Nat.mul_assoc]

theorem digitsVal_natRepr (n : Nat) : digitsVal (natRepr n) = n := by
  have h := digitsVal_gen n 0
  simpa [digitsVal] using h

theorem run_split (xs r : List Char) (h1 : ∀ x ∈ xs, x.isDigit = true)
    (h2 : headOk Char.isDigit r = true) :
    (xs ++ r).takeWhile Char.isDigit = xs ∧ (xs ++ r).dropWhile Char.isDigit = r := by
  induction xs with
  | nil =>
    cases r with
    | nil => simp
    | cons c cs =>
      have hc : c.isDigit = false := by simpa [headOk] using h2
      simp [List.takeWhile_cons, List.dropWhile_cons, hc]
  | cons x xs ih =>
    have hx : x.isDigit = true := h1 x (by simp)
    have hrec := ih (fun y hy => h1 y (by simp [hy]))
    simp [List.takeWhile_cons, List.dropWhile_cons, hx, hrec.1, hrec.2]

theorem decUint_run (mx n : Nat) (r : List Char) (hn : n ≤ mx)
    (hr : headOk Char.isDigit r = true) :
    decUint mx (natRepr n ++ r) = some (n, r) := by
  obtain ⟨h1, h2⟩ := run_split (natRepr n) r (natRepr_digits n) hr
  simp [decUint, h1, h2, natRepr_ne_nil n, digitsVal_natRepr, hn]

/-! ### The anchor scan `take_until` -/

theorem takeUntil_of (t p q : List Char) (hq : t.isPrefixOf q = true)
    (h : ∀ p₂, p₂ ≠ [] → p₂ <:+ p → t.isPrefixOf (p₂ ++ q) = false) :
    takeUntil t (p ++ q) = some (p, q) := by
  induction p with
  | nil =>
    cases q with
    | nil => simp [takeUntil, hq]
    | cons c cs => simp [takeUntil, hq]
  | cons c p' ih =>
    have hcons : t.isPrefixOf (c :: (p' ++ q)) = false :=
      h (c :: p') (by simp) (List.suffix_refl _)
    have ih' := ih (fun p₂ hne hs => h p₂ hne (hs.trans (List.suffix_cons c p')))
    simp [takeUntil, hcons, ih']

theorem takeUntil_none (t s : List Char) (ht : t ≠ []) (h : ¬ t <:+: s) :
    takeUntil t s = none := by
  induction s with
  | nil =>
    have hc : t.isPrefixOf [] = false := by
      cases hc : t.isPrefixOf ([] : List Char)
      · rfl
      · exact absurd (List.prefix_nil.1 (List.isPrefixOf_iff_prefix.1 hc)) ht
    simp [takeUntil, hc]
  | cons c cs ih =>
    have h1 : t.isPrefixOf (c :: cs) = false := by
      cases hc : t.isPrefixOf (c :: cs)
      · rfl
      · exact absurd (List.isPrefixOf_iff_prefix.1 hc).isInfix h
    have h2 : takeUntil t cs = none := ih (fun hi => h (List.infix_cons hi))
    simp [takeUntil, h1, h2]

theorem takeUntil_sound (t : List Char) :
    ∀ s a r : List Char, takeUntil t s = some (a, r) →
      t.isPrefixOf r = true ∧ r <:+ s := by
  intro s
  induction s with
  | nil =>
    intro a r h
    rw [takeUntil] at h
    split at h
    · next hc =>
      obtain ⟨rfl, rfl⟩ : [] = a ∧ [] = r := by simpa using h
      exact ⟨hc, List.suffix_refl _⟩
    · simp at h
  | cons c cs ih =>
    intro a r h
    rw [takeUntil] at h
    split at h
    · next hc =>
      obtain ⟨rfl, rfl⟩ : [] = a ∧ c :: cs = r := by simpa using h
      exact ⟨hc, List.suffix_refl _⟩
    · next hc =>
      cases hm : takeUntil t cs with
      | none => rw [hm] at h; simp at h
      | some pr =>
        rw [hm] at h
        simp only [Option.map_some'] at h
        obtain ⟨rfl, rfl⟩ : c :: pr.1 = a ∧ pr.2 = r := by simpa using h
        have hrec := ih pr.1 pr.2 hm
        exact ⟨hrec.1, hrec.2.trans (List.suffix_cons c cs)⟩

/-- `cov:` has no nontrivial border, so in `p ++ ("cov:" ++ q')` with `cov:`
not occurring in `p`, the first occurrence of `cov:` is exactly at the seam. -/
theorem noOcc_cov (p q' : List Char) (hp : ¬ covTok <:+: p) :
    ∀ p₂, p₂ ≠ [] → p₂ <:+ p → covTok.isPrefixOf (p₂ ++ (covTok ++ q')) = false := by
  intro p₂ hne hsuf
  cases hc : covTok.isPrefixOf (p₂ ++ (covTok ++ q')) with
  | false => rfl
  | true =>
    exfalso
    rcases p₂ with _ | ⟨a, _ | ⟨b, _ | ⟨c, _ | ⟨d, p₄⟩⟩⟩⟩
    · exact hne rfl
    · simp [covTok, List.isPrefixOf] at hc
    · simp [covTok, List.isPrefixOf] at hc
    · simp [covTok, List.isPrefixOf] at hc
    · simp only [covTok, List.isPrefixOf, List.cons_append, Bool.and_eq_true,
        beq_iff_eq] at hc
      obtain ⟨rfl, rfl, rfl, rfl, -⟩ := hc
      exact hp ((List.prefix_append covTok p₄).isInfix.trans hsuf.isInfix)

/-- `exec/s:` likewise has no nontrivial border. -/
theorem noOcc_execColon (p q' : List Char) (hp : ¬ execColonTok <:+: p) :
    ∀ p₂, p₂ ≠ [] → p₂ <:+ p →
      execColonTok.isPrefixOf (p₂ ++ (execColonTok ++ q')) = false := by
  intro p₂ hne hsuf
  cases hc : execColonTok.isPrefixOf (p₂ ++ (execColonTok ++ q')) with
  | false => rfl
  | true =>
    exfalso
    rcases p₂ with _ | ⟨a, _ | ⟨b, _ | ⟨c, _ | ⟨d, _ | ⟨e, _ | ⟨f, _ | ⟨g, p₇⟩⟩⟩⟩⟩⟩⟩
    · exact hne rfl
    · simp [execColonTok, List.isPrefixOf] at hc
    · simp [execColonTok, List.isPrefixOf] at hc
    · simp [execColonTok, List.isPrefixOf] at hc
    · simp [execColonTok, List.isPrefixOf] at hc
    · simp [execColonTok, List.isPrefixOf] at hc
    · simp [execColonTok, List.isPrefixOf] at hc
    · simp only [execColonTok, List.isPrefixOf, List.cons_append, Bool.and_eq_true,
        beq_iff_eq] at hc
      obtain ⟨rfl, rfl, rfl, rfl, rfl, rfl, rfl, -⟩ := hc
      exact hp ((List.prefix_append execColonTok p₇).isInfix.trans hsuf.isInfix)

/-! ### Each primitive continues on a suffix of its input -/

theorem pstr_suffix {t s : List Char} {u : Unit} {r : List Char}
    (h : pstr t s = some (u, r)) : r <:+ s := by
  unfold pstr at h
  split at h
  · obtain rfl : s.drop t.length = r := by simpa using h
    exact List.drop_suffix _ _
  · simp at h

theorem pstr_prefix {t s : List Char} {u : Unit} {r : List Char}
    (h : pstr t s = some (u, r)) : t <+: s := by
  unfold pstr at h
  split at h
  · next hc => exact List.isPrefixOf_iff_prefix.1 hc
  · simp at h

theorem space1_suffix {s : List Char} {u : Unit} {r : List Char}
    (h : space1 s = some (u, r)) : r <:+ s := by
  cases s with
  | nil => simp [space1] at h
  | cons c cs =>
    simp only [space1] at h
    split at h
    · obtain rfl : cs.dropWhile wsChar = r := by simpa using h
      exact (List.dropWhile_suffix _).trans (List.suffix_cons c cs)
    · simp at h

theorem decUint_suffix {mx : Nat} {s : List Char} {n : Nat} {r : List Char}
    (h : decUint mx s = some (n, r)) : r <:+ s := by
  simp only [decUint] at h
  split at h
  · simp at h
  · split at h
    · obtain ⟨-, rfl⟩ :
          digitsVal (s.takeWhile Char.isDigit) = n ∧ s.dropWhile Char.isDigit = r := by
        simpa using h
      exact List.dropWhile_suffix _
    · simp at h

theorem pchar_suffix {c : Char} {s : List Char} {u : Unit} {r : List Char}
    (h : pchar c s = some (u, r)) : r <:+ s := by
  cases s with
  | nil => simp [pchar] at h
  | cons x xs =>
    simp only [pchar] at h
    split at h
    · obtain rfl : xs = r := by simpa using h
      exact List.suffix_cons x xs
    · simp at h

theorem execSep_suffix {s : List Char} {u : Unit} {r : List Char}
    (h : execSep s = some (u, r)) : r <:+ s := by
  unfold execSep at h
  split at h
  · next rr hm =>
    obtain rfl : rr = (u, r) := by simpa using h
    obtain ⟨m, hm1, hm2⟩ := obind_eq_some.1 hm
    exact (space1_suffix hm2).trans (pstr_suffix (t := execTok) (by simpa using hm1))
  · obtain ⟨m, hm1, hm2⟩ := obind_eq_some.1 h
    exact (space1_suffix hm2).trans (pstr_suffix (t := execColonTok) (by simpa using hm1))

theorem unitMul_suffix {s : List Char} {n : Nat} {r : List Char}
    (h : unitMul s = some (n, r)) : r <:+ s := by
  unfold unitMul at h
  split at h
  · next x hx =>
    obtain ⟨-, rfl⟩ : 1024 = n ∧ x.2 = r := by simpa using h
    exact pstr_suffix (t := kbTok) (u := x.1) (by simpa using hx)
  · split at h
    · next x hx =>
      obtain ⟨-, rfl⟩ : 1048576 = n ∧ x.2 = r := by simpa using h
      exact pstr_suffix (t := mbTok) (u := x.1) (by simpa using hx)
    · split at h
      · next x hx =>
        obtain ⟨-, rfl⟩ : 1 = n ∧ x.2 = r := by simpa using h
        exact pstr_suffix (t := bTok) (u := x.1) (by simpa using hx)
      · simp at h

theorem corpSuffix_suffix {s : List Char} {n : Nat} {r : List Char}
    (h : corpSuffix s = some (n, r)) : r <:+ s := by
  unfold corpSuffix at h
  obtain ⟨x1, h1, h⟩ := obind_eq_some.1 h
  obtain ⟨x2, h2, h⟩ := obind_eq_some.1 h
  obtain ⟨x3, h3, h⟩ := obind_eq_some.1 h
  obtain ⟨-, rfl⟩ : x2.1 * x3.1 % 18446744073709551616 = n ∧ x3.2 = r := by simpa using h
  exact ((unitMul_suffix (by simpa using h3)).trans
    (decUint_suffix (by simpa using h2))).trans (pchar_suffix (by simpa using h1))

/-! ### Success of a parse forces the anchor tokens to occur in the line -/

theorem fork_anchors {s : List Char} {x : Parsed × List Char}
    (h : parse_fork_mode s = some x) : covTok <:+: s ∧ ftTok <:+: s := by
  unfold parse_fork_mode at h
  obtain ⟨a1, h1, h⟩ := obind_eq_some.1 h
  obtain ⟨a2, h2, h⟩ := obind_eq_some.1 h
  obtain ⟨a3, h3, h⟩ := obind_eq_some.1 h
  obtain ⟨cv, h4, h⟩ := obind_eq_some.1 h
  obtain ⟨b1, h5, h⟩ := obind_eq_some.1 h
  obtain ⟨b2, h6, h⟩ := obind_eq_some.1 h
  have hs1 : a1.2 <:+ s := (takeUntil_sound covTok s a1.1 a1.2 h1).2
  have hcov : covTok <+: a1.2 :=
    List.isPrefixOf_iff_prefix.1 (takeUntil_sound covTok s a1.1 a1.2 h1).1
  have hs2 : a2.2 <:+ a1.2 := pstr_suffix h2
  have hs3 : a3.2 <:+ a2.2 := space1_suffix h3
  have hs4 : cv.2 <:+ a3.2 := decUint_suffix h4
  have hs5 : b1.2 <:+ cv.2 := space1_suffix h5
  have hft : ftTok <+: b1.2 := pstr_prefix h6
  exact ⟨hcov.isInfix.trans hs1.isInfix,
    hft.isInfix.trans ((((hs5.trans hs4).trans hs3).trans hs2).trans hs1).isInfix⟩

theorem job_anchors {s : List Char} {x : Parsed × List Char}
    (h : parse_job_mode s = some x) :
    covTok <:+: s ∧ ftTok <:+: s ∧ execColonTok <:+: s := by
  unfold parse_job_mode at h
  obtain ⟨a1, h1, h⟩ := obind_eq_some.1 h
  obtain ⟨a2, h2, h⟩ := obind_eq_some.1 h
  obtain ⟨a3, h3, h⟩ := obind_eq_some.1 h
  obtain ⟨cv, h4, h⟩ := obind_eq_some.1 h
  obtain ⟨b1, h5, h⟩ := obind_eq_some.1 h
  obtain ⟨b2, h6, h⟩ := obind_eq_some.1 h
  obtain ⟨ftv, h7, h⟩ := obind_eq_some.1 h
  obtain ⟨ftn, h8, h⟩ := obind_eq_some.1 h
  obtain ⟨c1, h9, h⟩ := obind_eq_some.1 h
  obtain ⟨c2, h10, h⟩ := obind_eq_some.1 h
  obtain ⟨c3, h11, h⟩ := obind_eq_some.1 h
  obtain ⟨cp, h12, h⟩ := obind_eq_some.1 h
  obtain ⟨sz, h13, h⟩ := obind_eq_some.1 h
  obtain ⟨d1, h14, h⟩ := obind_eq_some.1 h
  have hs1 : a1.2 <:+ s := (takeUntil_sound covTok s a1.1 a1.2 h1).2
  have hcov : covTok <+: a1.2 :=
    List.isPrefixOf_iff_prefix.1 (takeUntil_sound covTok s a1.1 a1.2 h1).1
  have hs2 : a2.2 <:+ a1.2 := pstr_suffix h2
  have hs3 : a3.2 <:+ a2.2 := space1_suffix h3
  have hs4 : cv.2 <:+ a3.2 := decUint_suffix h4
  have hs5 : b1.2 <:+ cv.2 := space1_suffix h5
  have hft : ftTok <+: b1.2 := pstr_prefix h6
  have hs6 : b2.2 <:+ b1.2 := pstr_suffix h6
  have hs7 : ftv.2 <:+ b2.2 := space1_suffix h7
  have hs8 : ftn.2 <:+ ftv.2 := decUint_suffix h8
  have hs9 : c1.2 <:+ ftn.2 := space1_suffix h9
  have hs10 : c2.2 <:+ c1.2 := pstr_suffix h10
  have hs11 : c3.2 <:+ c2.2 := space1_suffix h11
  have hs12 : cp.2 <:+ c3.2 := decUint_suffix h12
  have hsz : sz.2 <:+ cp.2 := by
    cases hcs : corpSuffix cp.2 with
    | none =>
      rw [hcs] at h13
      obtain rfl : ((none : Option Nat), cp.2) = sz := by simpa using h13
      exact List.suffix_refl _
    | some y =>
      rw [hcs] at h13
      obtain rfl : ((some y.1 : Option Nat), y.2) = sz := by simpa using h13
      exact corpSuffix_suffix (n := y.1) (by simpa using hcs)
  have hd1 : d1.2 <:+ sz.2 := (takeUntil_sound execColonTok sz.2 d1.1 d1.2 h14).2
  have hexec : execColonTok <+: d1.2 :=
    List.isPrefixOf_iff_prefix.1 (takeUntil_sound execColonTok sz.2 d1.1 d1.2 h14).1
  have hchain5 : b1.2 <:+ s := (((hs5.trans hs4).trans hs3).trans hs2).trans hs1
  have hchain : d1.2 <:+ s :=
    ((((((((hd1.trans hsz).trans hs12).trans hs11).trans hs10).trans hs9).trans
      hs8).trans hs7).trans hs6).trans hchain5
  exact ⟨hcov.isInfix.trans hs1.isInfix, hft.isInfix.trans hchain5.isInfix,
    hexec.isInfix.trans hchain.isInfix⟩

/-! ### Evaluation lemmas for the grammar building blocks -/

theorem isPrefixOf_append_self (t r : List Char) : t.isPrefixOf (t ++ r) = true :=
  List.isPrefixOf_iff_prefix.2 (List.prefix_append t r)

theorem digit_not_ws (c : Char) (h : c.isDigit = true) : wsChar c = false := by
  cases hw : wsChar c
  · rfl
  · exfalso
    have hcs : c = ' ' ∨ c = '\t' := by simpa [wsChar] using hw
    rcases hcs with rfl | rfl <;> exact absurd h (by decide)

theorem natRepr_head_digit (n : Nat) : ∃ d t, natRepr n = d :: t ∧ d.isDigit = true := by
  cases hn : natRepr n with
  | nil => exact absurd hn (natRepr_ne_nil n)
  | cons d t =>
    refine ⟨d, t, rfl, natRepr_digits n d ?_⟩
    rw [hn]
    simp

theorem headOk_ws_natRepr (n : Nat) (r : List Char) :
    headOk wsChar (natRepr n ++ r) = true := by
  obtain ⟨d, t, hd, hdig⟩ := natRepr_head_digit n
  rw [hd]
  simp [headOk, digit_not_ws d hdig]

theorem headOk_append_left (b : Char → Bool) (xs r : List Char) (hne : xs ≠ [])
    (h : headOk b xs = true) : headOk b (xs ++ r) = true := by
  cases xs with
  | nil => exact absurd rfl hne
  | cons c cs => simpa [headOk] using h

theorem execSep_nocolon (r : List Char) (h : headOk wsChar r = true) :
    execSep (execTok ++ (' ' :: r)) = some ((), r) := by
  have h1 : obind (pstr execTok (execTok ++ (' ' :: r))) (fun x => space1 x.2)
      = some ((), r) := by
    rw [pstr_self, obind_some]
    exact space1_one r h
  simp [execSep, h1]

theorem execSep_colon (r : List Char) (h : headOk wsChar r = true) :
    execSep (execColonTok ++ (' ' :: r)) = some ((), r) := by
  have heq : execColonTok ++ (' ' :: r) = execTok ++ (':' :: ' ' :: r) := rfl
  have h1 : obind (pstr execTok (execColonTok ++ (' ' :: r))) (fun x => space1 x.2)
      = none := by
    rw [heq, pstr_self, obind_some]
    simp [space1, wsChar]
  have h2 : obind (pstr execColonTok (execColonTok ++ (' ' :: r))) (fun x => space1 x.2)
      = some ((), r) := by
    rw [pstr_self, obind_some]
    exact space1_one r h
  simp [execSep, h1, h2]

theorem unitMul_kb (r : List Char) : unitMul (kbTok ++ r) = some (1024, r) := by
  simp [unitMul, pstr_self]

theorem unitMul_mb (r : List Char) : unitMul (mbTok ++ r) = some (1048576, r) := by
  have h1 : pstr kbTok (mbTok ++ r) = none := by
    simp [pstr, kbTok, mbTok, List.isPrefixOf]
  simp [unitMul, h1, pstr_self]

theorem unitMul_b (r : List Char) : unitMul (bTok ++ r) = some (1, r) := by
  have h1 : pstr kbTok (bTok ++ r) = none := by
    simp [pstr, kbTok, bTok, List.isPrefixOf]
  have h2 : pstr mbTok (bTok ++ r) = none := by
    simp [pstr, mbTok, bTok, List.isPrefixOf]
  simp [unitMul, h1, h2, pstr_self]

theorem corpSuffix_eval (sz m : Nat) (u r : List Char) (hsz : sz ≤ u64mx)
    (hu : unitMul (u ++ r) = some (m, r)) (hur : headOk Char.isDigit (u ++ r) = true) :
    corpSuffix ('/' :: (natRepr sz ++ (u ++ r)))
      = some (sz * m % 18446744073709551616, r) := by
  rw [corpSuffix, pchar_self, obind_some]
  rw [decUint_run u64mx sz (u ++ r) hsz hur]
  rw [obind_some, hu, obind_some]

theorem corpSuffix_none_of_noslash (s : List Char)
    (h : headOk (fun c => c == '/') s = true) : corpSuffix s = none := by
  cases s with
  | nil => rfl
  | cons x xs =>
    have hx : (x == '/') = false := by simpa [headOk] using h
    simp [corpSuffix, pchar, hx, obind_none]

/-! ### Full evaluation of a well-formed Format A line -/

theorem headOk_ws_ftTok (r : List Char) : headOk wsChar (ftTok ++ r) = true := rfl

theorem headOk_ws_corpTok (r : List Char) : headOk wsChar (corpTok ++ r) = true := rfl

theorem headOk_ws_oomTok (r : List Char) : headOk wsChar (oomTok ++ r) = true := rfl

theorem headOk_ws_timeTok (r : List Char) : headOk wsChar (timeTok ++ r) = true := rfl

theorem headOk_digit_space (r : List Char) : headOk Char.isDigit (' ' :: r) = true := rfl

theorem headOk_digit_slash (r : List Char) : headOk Char.isDigit ('/' :: r) = true := rfl

theorem headOk_digit_s (r : List Char) : headOk Char.isDigit ('s' :: r) = true := rfl

theorem fork_eval (p : List Char) (c f k : Nat) (xsep : List Char) (e o t cr ti : Nat)
    (tr : List Char) (hp : ¬ covTok <:+: p)
    (hxne : xsep ≠ []) (hxhead : headOk wsChar xsep = true)
    (hxsep : ∀ r : List Char, headOk wsChar r = true → execSep (xsep ++ r) = some ((), r))
    (hc : c ≤ u32mx) (hf : f ≤ u32mx) (hk : k ≤ u32mx) (he : e ≤ u32mx)
    (ho : o ≤ u32mx) (ht : t ≤ u32mx) (hcr : cr ≤ u32mx) (hti : ti ≤ u32mx) :
    fromLog (lineFork p c f k xsep e o t cr ti tr) = some ⟨c, f, k, 0, e, o, t, cr, ti⟩ := by
  simp only [fromLog, lineFork, List.append_assoc, List.singleton_append, List.cons_append, List.nil_append]
  simp only [parse_fork_mode]
  rw [takeUntil_of covTok p _ (isPrefixOf_append_self covTok _) (noOcc_cov p _ hp)]
  simp only [obind_some]
  rw [pstr_self covTok _]
  simp only [obind_some]
  rw [space1_one _ (headOk_ws_natRepr c _)]
  simp only [obind_some]
  rw [decUint_run u32mx c _ hc (headOk_digit_space _)]
  simp only [obind_some]
  rw [space1_one _ (headOk_ws_ftTok _)]
  simp only [obind_some]
  rw [pstr_self ftTok _]
  simp only [obind_some]
  rw [space1_one _ (headOk_ws_natRepr f _)]
  simp only [obind_some]
  rw [decUint_run u32mx f _ hf (headOk_digit_space _)]
  simp only [obind_some]
  rw [space1_one _ (headOk_ws_corpTok _)]
  simp only [obind_some]
  rw [pstr_self corpTok _]
  simp only [obind_some]
  rw [space1_one _ (headOk_ws_natRepr k _)]
  simp only [obind_some]
  rw [decUint_run u32mx k _ hk (headOk_digit_space _)]
  simp only [obind_some]
  rw [space1_one _ (headOk_append_left wsChar xsep _ hxne hxhead)]
  simp only [obind_some]
  rw [hxsep _ (headOk_ws_natRepr e _)]
  simp only [obind_some]
  rw [decUint_run u32mx e _ he (headOk_digit_space _)]
  simp only [obind_some]
  rw [space1_one _ (headOk_ws_oomTok _)]
  simp only [obind_some]
  rw [pstr_self oomTok _]
  simp only [obind_some]
  rw [space1_one _ (headOk_ws_natRepr o _)]
  simp only [obind_some]
  rw [decUint_run u32mx o _ ho (headOk_digit_slash _)]
  simp only [obind_some]
  rw [pchar_self '/' _]
  simp only [obind_some]
  rw [decUint_run u32mx t _ ht (headOk_digit_slash _)]
  simp only [obind_some]
  rw [pchar_self '/' _]
  simp only [obind_some]
  rw [decUint_run u32mx cr _ hcr (headOk_digit_space _)]
  simp only [obind_some]
  rw [space1_one _ (headOk_ws_timeTok _)]
  simp only [obind_some]
  rw [pstr_self timeTok _]
  simp only [obind_some]
  rw [space1_one _ (headOk_ws_natRepr ti _)]
  simp only [obind_some]
  rw [decUint_run u32mx ti _ hti (headOk_digit_s _)]
  simp only [obind_some]
  rw [pchar_self 's' tr]
  simp only [obind_some]
  simp

/-! ### Full evaluation of well-formed Format B lines -/

theorem headOk_append_both (b : Char → Bool) (xs r : List Char) (h1 : headOk b xs = true)
    (h2 : headOk b r = true) : headOk b (xs ++ r) = true := by
  cases xs with
  | nil => simpa using h2
  | cons c cs => simpa [headOk] using h1

theorem headOk_digit_execColonTok (r : List Char) :
    headOk Char.isDigit (execColonTok ++ r) = true := rfl

theorem headOk_slash_execColonTok (r : List Char) :
    headOk (fun c => c == '/') (execColonTok ++ r) = true := rfl

theorem job_eval_nosuffix (p filler : List Char) (c f k e : Nat) (tr : List Char)
    (hp : ¬ covTok <:+: p) (hnf : ¬ execColonTok <:+: filler)
    (hfd : headOk Char.isDigit filler = true)
    (hcs : corpSuffix (filler ++ (execColonTok ++ (' ' :: (natRepr e ++ tr)))) = none)
    (hc : c ≤ u32mx) (hf : f ≤ u32mx) (hk : k ≤ u32mx) (he : e ≤ u32mx)
    (htr : headOk Char.isDigit tr = true) :
    fromLogJob (lineJob p c f k [] filler e tr) = some ⟨c, f, k, 0, e, 0, 0, 0, 0⟩ := by
  simp only [fromLogJob, lineJob, List.append_assoc, List.singleton_append,
    List.cons_append, List.nil_append]
  simp only [parse_job_mode]
  rw [takeUntil_of covTok p _ (isPrefixOf_append_self covTok _) (noOcc_cov p _ hp)]
  simp only [obind_some]
  rw [pstr_self covTok _]
  simp only [obind_some]
  rw [space1_one _ (headOk_ws_natRepr c _)]
  simp only [obind_some]
  rw [decUint_run u32mx c _ hc (headOk_digit_space _)]
  simp only [obind_some]
  rw [space1_one _ (headOk_ws_ftTok _)]
  simp only [obind_some]
  rw [pstr_self ftTok _]
  simp only [obind_some]
  rw [space1_one _ (headOk_ws_natRepr f _)]
  simp only [obind_some]
  rw [decUint_run u32mx f _ hf (headOk_digit_space _)]
  simp only [obind_some]
  rw [space1_one _ (headOk_ws_corpTok _)]
  simp only [obind_some]
  rw [pstr_self corpTok _]
  simp only [obind_some]
  rw [space1_one _ (headOk_ws_natRepr k _)]
  simp only [obind_some]
  rw [decUint_run u32mx k _ hk
    (headOk_append_both Char.isDigit filler _ hfd (headOk_digit_execColonTok _))]
  simp only [obind_some]
  rw [hcs]
  simp only [obind_some]
  rw [takeUntil_of execColonTok filler _ (isPrefixOf_append_self execColonTok _)
    (noOcc_execColon filler _ hnf)]
  simp only [obind_some]
  rw [pstr_self execColonTok _]
  simp only [obind_some]
  rw [space1_one _ (headOk_ws_natRepr e _)]
  simp only [obind_some]
  rw [decUint_run u32mx e _ he htr]
  simp only [obind_some]
  simp

theorem job_eval_suffix (p filler u : List Char) (c f k sz m e : Nat) (tr : List Char)
    (hp : ¬ covTok <:+: p) (hnf : ¬ execColonTok <:+: filler)
    (hsz : sz ≤ u64mx) (hu : ∀ r, unitMul (u ++ r) = some (m, r))
    (hune : u ≠ []) (huhead : headOk Char.isDigit u = true)
    (hc : c ≤ u32mx) (hf : f ≤ u32mx) (hk : k ≤ u32mx) (he : e ≤ u32mx)
    (htr : headOk Char.isDigit tr = true) :
    fromLogJob (lineJob p c f k (['/'] ++ natRepr sz ++ u) filler e tr)
      = some ⟨c, f, k, sz * m % 18446744073709551616, e, 0, 0, 0, 0⟩ := by
  simp only [fromLogJob, lineJob, List.append_assoc, List.singleton_append,
    List.cons_append, List.nil_append]
  simp only [parse_job_mode]
  rw [takeUntil_of covTok p _ (isPrefixOf_append_self covTok _) (noOcc_cov p _ hp)]
  simp only [obind_some]
  rw [pstr_self covTok _]
  simp only [obind_some]
  rw [space1_one _ (headOk_ws_natRepr c _)]
  simp only [obind_some]
  rw [decUint_run u32mx c _ hc (headOk_digit_space _)]
  simp only [obind_some]
  rw [space1_one _ (headOk_ws_ftTok _)]
  simp only [obind_some]
  rw [pstr_self ftTok _]
  simp only [obind_some]
  rw [space1_one _ (headOk_ws_natRepr f _)]
  simp only [obind_some]
  rw [decUint_run u32mx f _ hf (headOk_digit_space _)]
  simp only [obind_some]
  rw [space1_one _ (headOk_ws_corpTok _)]
  simp only [obind_some]
  rw [pstr_self corpTok _]
  simp only [obind_some]
  rw [space1_one _ (headOk_ws_natRepr k _)]
  simp only [obind_some]
  rw [decUint_run u32mx k _ hk (headOk_digit_slash _)]
  simp only [obind_some]
  rw [corpSuffix_eval sz m u _ hsz (hu _)
    (headOk_append_left Char.isDigit u _ hune huhead)]
  simp only [obind_some]
  rw [takeUntil_of execColonTok filler _ (isPrefixOf_append_self execColonTok _)
    (noOcc_execColon filler _ hnf)]
  simp only [obind_some]
  rw [pstr_self execColonTok _]
  simp only [obind_some]
  rw [space1_one _ (headOk_ws_natRepr e _)]
  simp only [obind_some]
  rw [decUint_run u32mx e _ he htr]
  simp only [obind_some]
  simp

/-! ### Aggregator reductions -/

theorem foldl_max_le (l : List Nat) :
    ∀ a : Nat, a ≤ l.foldl max a ∧ ∀ x ∈ l, x ≤ l.foldl max a := by
  induction l with
  | nil => intro a; exact ⟨le_refl a, by simp⟩
  | cons x xs ih =>
    intro a
    have h := ih (max a x)
    refine ⟨le_trans (le_max_left a x) h.1, ?_⟩
    intro y hy
    rcases List.mem_cons.1 hy with rfl | hy
    · exact le_trans (le_max_right a y) h.1
    · exact h.2 y hy

theorem foldl_max_mem (l : List Nat) :
    ∀ a : Nat, l.foldl max a = a ∨ l.foldl max a ∈ l := by
  induction l with
  | nil => intro a; left; rfl
  | cons x xs ih =>
    intro a
    rcases ih (max a x) with h | h
    · rw [List.foldl_cons, h]
      rcases max_choice a x with hm | hm
      · left; exact hm
      · right; rw [hm]; exact List.mem_cons_self x xs
    · right; exact List.mem_cons_of_mem x h

theorem maxOr0_mem (l : List Nat) (h : l ≠ []) : maxOr0 l ∈ l := by
  rcases foldl_max_mem l 0 with h0 | h0
  · cases l with
    | nil => exact absurd rfl h
    | cons x xs =>
      have hxle : x ≤ (x :: xs).foldl max 0 :=
        (foldl_max_le (x :: xs) 0).2 x (List.mem_cons_self x xs)
      have hx0 : x = 0 := by
        rw [h0] at hxle
        omega
      show (x :: xs).foldl max 0 ∈ x :: xs
      rw [h0, ← hx0]
      exact List.mem_cons_self x xs
  · exact h0

theorem foldl_max_eq_foldr (l : List Nat) :
    ∀ a : Nat, l.foldl max a = max a (l.foldr max 0) := by
  induction l with
  | nil => intro a; simp
  | cons x xs ih =>
    intro a
    rw [List.foldl_cons, List.foldr_cons, ih (max a x), max_assoc]

theorem maxOr0_eq_foldr (l : List Nat) : maxOr0 l = l.foldr max 0 := by
  have h := foldl_max_eq_foldr l 0
  simpa [maxOr0] using h

theorem foldl_addmod (l : List Nat) :
    ∀ a : Nat, l.foldl (fun x y => (x + y) % 4294967296) (a % 4294967296)
      = (a + l.sum) % 4294967296 := by
  induction l with
  | nil => intro a; simp
  | cons x xs ih =>
    intro a
    rw [List.foldl_cons, List.sum_cons, Nat.mod_add_mod, ih (a + x), Nat.add_assoc]

theorem sumU32_eq (l : List Nat) : sumU32 l = l.sum % 4294967296 := by
  have h := foldl_addmod l 0
  simpa [sumU32] using h

/-! ### The claims -/

/-- C1: every well-formed Format A line — arbitrary prefix not containing the
`cov:` anchor, then the anchored `cov`/`ft`/`corp` fields, `exec/s` with or
without colon, the `oom/timeout/crash` triple, and `time` with `s` suffix —
parses to exactly the embedded numbers, with `corpus_bytes = 0`, and arbitrary
trailing content after the time field does not affect the result. -/
theorem claim_C1 (p : List Char) (c f k : Nat) (xsep : List Char) (e o t cr ti : Nat)
    (tr : List Char) (hp : ¬ covTok <:+: p)
    (hx : xsep = execTok ++ [' '] ∨ xsep = execColonTok ++ [' '])
    (hc : c ≤ u32mx) (hf : f ≤ u32mx) (hk : k ≤ u32mx) (he : e ≤ u32mx)
    (ho : o ≤ u32mx) (ht : t ≤ u32mx) (hcr : cr ≤ u32mx) (hti : ti ≤ u32mx) :
    fromLog (lineFork p c f k xsep e o t cr ti tr)
      = some ⟨c, f, k, 0, e, o, t, cr, ti⟩ := by
  have hno : ∀ r : List Char, headOk wsChar r = true →
      execSep (xsep ++ r) = some ((), r) := by
    rcases hx with rfl | rfl
    · intro r hr
      rw [List.append_assoc, List.singleton_append]
      exact execSep_nocolon r hr
    · intro r hr
      rw [List.append_assoc, List.singleton_append]
      exact execSep_colon r hr
  rcases hx with rfl | rfl
  · exact fork_eval p c f k _ e o t cr ti tr hp (by decide) rfl hno hc hf hk he ho ht hcr hti
  · exact fork_eval p c f k _ e o t cr ti tr hp (by decide) rfl hno hc hf hk he ho ht hcr hti

/-- C1 witness: the documented example line is an instance of the schema and
yields exactly the documented record. -/
theorem claim_C1_witness :
    lineFork (("Feb 20 08:24:30 test-server-1 cargo[117394]: #2903021619: ").toList)
        2163 20854 2853 (execColonTok ++ [' ']) 1464 0 0 0 56383
        ((" job: 6125 dft_time: 0").toList) = exampleLineA
    ∧ fromLog exampleLineA = some ⟨2163, 20854, 2853, 0, 1464, 0, 0, 0, 56383⟩ := by
  have h1 : lineFork (("Feb 20 08:24:30 test-server-1 cargo[117394]: #2903021619: ").toList)
      2163 20854 2853 (execColonTok ++ [' ']) 1464 0 0 0 56383
      ((" job: 6125 dft_time: 0").toList) = exampleLineA := by decide
  refine ⟨h1, ?_⟩
  rw [← h1]
  exact claim_C1 _ 2163 20854 2853 _ 1464 0 0 0 56383 _ (by decide) (Or.inr rfl)
    (by decide) (by decide) (by decide) (by decide) (by decide) (by decide) (by decide)
    (by decide)

/-- C8: in Format A the `exec/s` token may or may not carry a colon — for
otherwise-identical well-formed lines the two spellings parse to the same
record (in particular the same `exec_per_sec`). -/
theorem claim_C8 (p : List Char) (c f k e o t cr ti : Nat) (tr : List Char)
    (hp : ¬ covTok <:+: p)
    (hc : c ≤ u32mx) (hf : f ≤ u32mx) (hk : k ≤ u32mx) (he : e ≤ u32mx)
    (ho : o ≤ u32mx) (ht : t ≤ u32mx) (hcr : cr ≤ u32mx) (hti : ti ≤ u32mx) :
    fromLog (lineFork p c f k (execTok ++ [' ']) e o t cr ti tr)
      = fromLog (lineFork p c f k (execColonTok ++ [' ']) e o t cr ti tr)
    ∧ fromLog (lineFork p c f k (execTok ++ [' ']) e o t cr ti tr)
      = some ⟨c, f, k, 0, e, o, t, cr, ti⟩ := by
  have hno : ∀ r : List Char, headOk wsChar r = true →
      execSep ((execTok ++ [' ']) ++ r) = some ((), r) := by
    intro r hr
    rw [List.append_assoc, List.singleton_append]
    exact execSep_nocolon r hr
  have hco : ∀ r : List Char, headOk wsChar r = true →
      execSep ((execColonTok ++ [' ']) ++ r) = some ((), r) := by
    intro r hr
    rw [List.append_assoc, List.singleton_append]
    exact execSep_colon r hr
  have e1 := fork_eval p c f k (execTok ++ [' ']) e o t cr ti tr hp (by decide) rfl hno
    hc hf hk he ho ht hcr hti
  have e2 := fork_eval p c f k (execColonTok ++ [' ']) e o t cr ti tr hp (by decide) rfl
    hco hc hf hk he ho ht hcr hti
  exact ⟨e1.trans e2.symm, e1⟩

/-- C8 witness: the second documented test line (`exec/s 24015`, no colon)
equals its colon variant and parses to the documented record. -/
theorem claim_C8_witness :
    lineFork (("Feb 24 16:30:28 test-server-1 cargo[478967]: #190817895: ").toList)
        400 7911 1901 (execTok ++ [' ']) 24015 0 0 0 252
        ((" job: 110 dft_time: 0").toList) = exampleLineA2
    ∧ fromLog exampleLineA2
        = fromLog (lineFork (("Feb 24 16:30:28 test-server-1 cargo[478967]: #190817895: ").toList)
            400 7911 1901 (execColonTok ++ [' ']) 24015 0 0 0 252
            ((" job: 110 dft_time: 0").toList))
    ∧ fromLog exampleLineA2 = some ⟨400, 7911, 1901, 0, 24015, 0, 0, 0, 252⟩ := by
  have h1 : lineFork (("Feb 24 16:30:28 test-server-1 cargo[478967]: #190817895: ").toList)
      400 7911 1901 (execTok ++ [' ']) 24015 0 0 0 252
      ((" job: 110 dft_time: 0").toList) = exampleLineA2 := by decide
  have h := claim_C8 (("Feb 24 16:30:28 test-server-1 cargo[478967]: #190817895: ").toList)
    400 7911 1901 24015 0 0 0 252 ((" job: 110 dft_time: 0").toList) (by decide)
    (by decide) (by decide) (by decide) (by decide) (by decide) (by decide) (by decide)
    (by decide)
  refine ⟨h1, ?_, ?_⟩
  · rw [← h1]
    exact h.1
  · rw [← h1]
    exact h.2

/-- C2: in Format B the optional `/<size><unit>` suffix of the `corp` field
determines `corpus_bytes` with multipliers Kb = 1024, Mb = 1024·1024, b = 1;
without the suffix `corpus_bytes = 0`; and the oom/timeout/crash/elapsed
fields are always 0. -/
theorem claim_C2 :
    (∀ (p filler u : List Char) (c f k sz m e : Nat) (tr : List Char),
      ¬ covTok <:+: p → ¬ execColonTok <:+: filler →
      ((u = kbTok ∧ m = 1024) ∨ (u = mbTok ∧ m = 1048576) ∨ (u = bTok ∧ m = 1)) →
      sz ≤ u64mx → sz * m ≤ u64mx →
      c ≤ u32mx → f ≤ u32mx → k ≤ u32mx → e ≤ u32mx →
      headOk Char.isDigit tr = true →
      fromLogJob (lineJob p c f k (['/'] ++ natRepr sz ++ u) filler e tr)
        = some ⟨c, f, k, sz * m, e, 0, 0, 0, 0⟩)
    ∧ (∀ (p filler : List Char) (c f k e : Nat) (tr : List Char),
      ¬ covTok <:+: p → ¬ execColonTok <:+: filler →
      headOk Char.isDigit filler = true →
      headOk (fun ch => ch == '/') filler = true →
      c ≤ u32mx → f ≤ u32mx → k ≤ u32mx → e ≤ u32mx →
      headOk Char.isDigit tr = true →
      fromLogJob (lineJob p c f k [] filler e tr) = some ⟨c, f, k, 0, e, 0, 0, 0, 0⟩) := by
  constructor
  · intro p filler u c f k sz m e tr hp hnf hu hsz hprod hc hf hk he htr
    have hmod : sz * m % 18446744073709551616 = sz * m := by
      apply Nat.mod_eq_of_lt
      simp only [u64mx] at hprod
      omega
    rcases hu with ⟨rfl, rfl⟩ | ⟨rfl, rfl⟩ | ⟨rfl, rfl⟩
    · have h := job_eval_suffix p filler kbTok c f k sz 1024 e tr hp hnf hsz
        unitMul_kb (by decide) rfl hc hf hk he htr
      rw [h, hmod]
    · have h := job_eval_suffix p filler mbTok c f k sz 1048576 e tr hp hnf hsz
        unitMul_mb (by decide) rfl hc hf hk he htr
      rw [h, hmod]
    · have h := job_eval_suffix p filler bTok c f k sz 1 e tr hp hnf hsz
        unitMul_b (by decide) rfl hc hf hk he htr
      rw [h, hmod]
  · intro p filler c f k e tr hp hnf hfd hsl hc hf hk he htr
    have hcs : corpSuffix (filler ++ (execColonTok ++ (' ' :: (natRepr e ++ tr)))) = none :=
      corpSuffix_none_of_noslash _
        (headOk_append_both _ filler _ hsl (headOk_slash_execColonTok _))
    exact job_eval_nosuffix p filler c f k e tr hp hnf hfd hcs hc hf hk he htr

/-- C2 witness: the documented `corp: 1640/591Kb` line gives
`corpus_bytes = 591 * 1024 = 605184`; the `Mb` and `b` units multiply by
1024·1024 and 1; and the suffix-free variant gives `corpus_bytes = 0`. -/
theorem claim_C2_witness :
    lineJob (("RELOAD ").toList) 641 9191 1640 (['/'] ++ natRepr 591 ++ kbTok)
        ((" lim: 2411 ").toList) 529 ((" rss: 36Mb").toList) = exampleLineB
    ∧ fromLogJob exampleLineB = some ⟨641, 9191, 1640, 591 * 1024, 529, 0, 0, 0, 0⟩
    ∧ fromLogJob (lineJob (("RELOAD ").toList) 641 9191 1640
        (['/'] ++ natRepr 591 ++ mbTok) ((" lim: 2411 ").toList) 529 ((" rss: 36Mb").toList))
      = some ⟨641, 9191, 1640, 591 * 1048576, 529, 0, 0, 0, 0⟩
    ∧ fromLogJob (lineJob (("RELOAD ").toList) 641 9191 1640
        (['/'] ++ natRepr 591 ++ bTok) ((" lim: 2411 ").toList) 529 ((" rss: 36Mb").toList))
      = some ⟨641, 9191, 1640, 591 * 1, 529, 0, 0, 0, 0⟩
    ∧ fromLogJob (lineJob (("RELOAD ").toList) 641 9191 1640 []
        ((" lim: 2411 ").toList) 529 ((" rss: 36Mb").toList))
      = some ⟨641, 9191, 1640, 0, 529, 0, 0, 0, 0⟩ := by
  have h1 : lineJob (("RELOAD ").toList) 641 9191 1640 (['/'] ++ natRepr 591 ++ kbTok)
      ((" lim: 2411 ").toList) 529 ((" rss: 36Mb").toList) = exampleLineB := by decide
  refine ⟨h1, ?_, ?_, ?_, ?_⟩
  · rw [← h1]
    exact claim_C2.1 _ _ kbTok 641 9191 1640 591 1024 529 _ (by decide) (by decide)
      (Or.inl ⟨rfl, rfl⟩) (by decide) (by decide) (by decide) (by decide) (by decide)
      (by decide) (by decide)
  · exact claim_C2.1 _ _ mbTok 641 9191 1640 591 1048576 529 _ (by decide) (by decide)
      (Or.inr (Or.inl ⟨rfl, rfl⟩)) (by decide) (by decide) (by decide) (by decide)
      (by decide) (by decide) (by decide)
  · exact claim_C2.1 _ _ bTok 641 9191 1640 591 1 529 _ (by decide) (by decide)
      (Or.inr (Or.inr ⟨rfl, rfl⟩)) (by decide) (by decide) (by decide) (by decide)
      (by decide) (by decide) (by decide)
  · exact claim_C2.2 _ _ 641 9191 1640 529 _ (by decide) (by decide) (by decide)
      (by decide) (by decide) (by decide) (by decide) (by decide) (by decide)

/-- C4 counterexample: the line with the malformed `Gb` unit suffix does NOT
return NotRecognized — it parses successfully with `corpus_bytes = 0`. -/
theorem claim_C4_counterexample :
    fromLogJob exampleLineGb = some ⟨641, 9191, 1640, 0, 529, 0, 0, 0, 0⟩ := by
  decide

/-- C4 amended: a malformed corpus-size suffix does not fail the Format B
parse — the optional suffix backtracks (any corp-field remainder on which
`corpSuffix` fails, e.g. `/591Gb`, yields `corpus_bytes = 0` and the text is
skipped by the scan to `exec/s:`); a missing anchor (e.g. no `cov:`) still
returns NotRecognized. -/
theorem claim_C4 :
    (∀ (p filler : List Char) (c f k e : Nat) (tr : List Char),
      ¬ covTok <:+: p → ¬ execColonTok <:+: filler →
      headOk Char.isDigit filler = true →
      corpSuffix (filler ++ (execColonTok ++ (' ' :: (natRepr e ++ tr)))) = none →
      c ≤ u32mx → f ≤ u32mx → k ≤ u32mx → e ≤ u32mx →
      headOk Char.isDigit tr = true →
      fromLogJob (lineJob p c f k [] filler e tr) = some ⟨c, f, k, 0, e, 0, 0, 0, 0⟩)
    ∧ (∀ l : List Char, ¬ covTok <:+: l → fromLogJob l = none) := by
  constructor
  · intro p filler c f k e tr hp hnf hfd hcs hc hf hk he htr
    exact job_eval_nosuffix p filler c f k e tr hp hnf hfd hcs hc hf hk he htr
  · intro l hl
    cases hj : parse_job_mode l with
    | none => simp [fromLogJob, hj, obind_none]
    | some x => exact absurd (job_anchors hj).1 hl

/-- C4 witness: instantiating the amended claim with the malformed-suffix
filler `/591Gb lim: 2411 ` reproduces the `Gb` example line exactly, and a
line with no `cov:` anchor is still rejected. -/
theorem claim_C4_witness :
    lineJob (("RELOAD ").toList) 641 9191 1640 [] (("/591Gb lim: 2411 ").toList) 529
        ((" rss: 36Mb").toList) = exampleLineGb
    ∧ fromLogJob exampleLineGb = some ⟨641, 9191, 1640, 0, 529, 0, 0, 0, 0⟩
    ∧ fromLogJob (("RELOAD no anchors at all").toList) = none := by
  have h1 : lineJob (("RELOAD ").toList) 641 9191 1640 [] (("/591Gb lim: 2411 ").toList)
      529 ((" rss: 36Mb").toList) = exampleLineGb := by decide
  refine ⟨h1, ?_, claim_C4.2 _ (by decide)⟩
  rw [← h1]
  exact claim_C4.1 _ _ 641 9191 1640 529 _ (by decide) (by decide) (by decide)
    (by decide) (by decide) (by decide) (by decide) (by decide) (by decide)

/-- C7: fields between the `corp` field and the literal `exec/s:` are skipped
without affecting the result; the colon after `exec/s` is mandatory in Format
B (a line with no `exec/s:` occurrence is NotRecognized); and the documented
example line yields the documented record. -/
theorem claim_C7 :
    (∀ (p filler : List Char) (c f k e : Nat) (tr : List Char),
      ¬ covTok <:+: p → ¬ execColonTok <:+: filler →
      headOk Char.isDigit filler = true →
      headOk (fun ch => ch == '/') filler = true →
      c ≤ u32mx → f ≤ u32mx → k ≤ u32mx → e ≤ u32mx →
      headOk Char.isDigit tr = true →
      fromLogJob (lineJob p c f k [] filler e tr) = some ⟨c, f, k, 0, e, 0, 0, 0, 0⟩)
    ∧ (∀ l : List Char, ¬ execColonTok <:+: l → fromLogJob l = none)
    ∧ fromLogJob exampleLineB = some ⟨641, 9191, 1640, 605184, 529, 0, 0, 0, 0⟩ := by
  refine ⟨?_, ?_, by decide⟩
  · intro p filler c f k e tr hp hnf hfd hsl hc hf hk he htr
    have hcs : corpSuffix (filler ++ (execColonTok ++ (' ' :: (natRepr e ++ tr)))) = none :=
      corpSuffix_none_of_noslash _
        (headOk_append_both _ filler _ hsl (headOk_slash_execColonTok _))
    exact job_eval_nosuffix p filler c f k e tr hp hnf hfd hcs hc hf hk he htr
  · intro l hl
    cases hj : parse_job_mode l with
    | none => simp [fromLogJob, hj, obind_none]
    | some x => exact absurd (job_anchors hj).2.2 hl

/-- C7 witness: two different fillers produce the identical record, and the
`exec/s 529` spelling without colon is rejected. -/
theorem claim_C7_witness :
    fromLogJob (lineJob (("RELOAD ").toList) 641 9191 1640 []
        ((" lim: 2411 ").toList) 529 ((" rss: 36Mb").toList))
      = some ⟨641, 9191, 1640, 0, 529, 0, 0, 0, 0⟩
    ∧ fromLogJob (lineJob (("RELOAD ").toList) 641 9191 1640 []
        ((" lim: 2411 units: 7 ").toList) 529 ((" rss: 36Mb").toList))
      = some ⟨641, 9191, 1640, 0, 529, 0, 0, 0, 0⟩
    ∧ fromLogJob (("RELOAD cov: 641 ft: 9191 corp: 1640/591Kb lim: 2411 exec/s 529 rss: 36Mb").toList)
      = none := by
  refine ⟨?_, ?_, claim_C7.2.1 _ (by decide)⟩
  · exact claim_C7.1 _ _ 641 9191 1640 529 _ (by decide) (by decide) (by decide)
      (by decide) (by decide) (by decide) (by decide) (by decide) (by decide)
  · exact claim_C7.1 _ _ 641 9191 1640 529 _ (by decide) (by decide) (by decide)
      (by decide) (by decide) (by decide) (by decide) (by decide) (by decide)

/-- C3 counterexample: with two records of `exec_per_sec = 2^31` each, the
published `fuzz_exec_s` is 0 (the u32 sum wraps), not the true sum 2^32. -/
theorem claim_C3_counterexample :
    ("fuzz_exec_s", 0) ∈ tick [⟨0, 0, 0, 2147483648, 0⟩, ⟨0, 0, 0, 2147483648, 0⟩]
    ∧ ("fuzz_exec_s", 2147483648 + 2147483648)
        ∉ tick [⟨0, 0, 0, 2147483648, 0⟩, ⟨0, 0, 0, 2147483648, 0⟩] := by
  constructor <;> decide

/-- C3 amended: each tick publishes the maximum of coverage, features, corpus
count and corpus size over all records and the sum of exec_per_sec reduced
modulo 2^32 (equal to the true sum whenever it is below 2^32); in particular
coverage values 10/50/30 publish 50 and exec values 100/200/300 publish 600. -/
theorem claim_C3 :
    (∀ jobs : List JobStatus,
      tick jobs = [("fuzz_cov", (jobs.map JobStatus.cov).foldr max 0),
        ("fuzz_feat", (jobs.map JobStatus.ft).foldr max 0),
        ("fuzz_corp", (jobs.map JobStatus.corp).foldr max 0),
        ("fuzz_exec_s", (jobs.map JobStatus.exec_s).sum % 4294967296),
        ("fuzz_corp_size", (jobs.map JobStatus.corp_size).foldr max 0)])
    ∧ tick [⟨10, 0, 0, 100, 0⟩, ⟨50, 0, 0, 200, 0⟩, ⟨30, 0, 0, 300, 0⟩]
        = [("fuzz_cov", 50), ("fuzz_feat", 0), ("fuzz_corp", 0), ("fuzz_exec_s", 600),
           ("fuzz_corp_size", 0)] := by
  constructor
  · intro jobs
    simp [tick, aggCov, aggFt, aggCorp, aggExec, aggCorpSize, maxOr0_eq_foldr, sumU32_eq]
  · decide

/-- C5 counterexample: for the successfully parsed documented line, journal
mode publishes eight gauges and `fuzz_corp_size` is not among them. -/
theorem claim_C5_counterexample :
    journalStep exampleLineA
      = [("fuzz_cov", 2163), ("fuzz_feat", 20854), ("fuzz_corp", 2853),
         ("fuzz_exec_s", 1464), ("fuzz_oom", 0), ("fuzz_timeout", 0), ("fuzz_crash", 0),
         ("fuzz_time", 56383)]
    ∧ "fuzz_corp_size" ∉ (journalStep exampleLineA).map Prod.fst := by
  constructor <;> decide

/-- C5 amended: in single-source (journal) mode every successfully parsed
line publishes the gauges fuzz_cov, fuzz_feat, fuzz_corp and fuzz_exec_s
together with fuzz_oom, fuzz_timeout, fuzz_crash and fuzz_time — but not
fuzz_corp_size, which journal mode never sets. -/
theorem claim_C5 (l : List Char) (pr : Parsed) (h : fromLog l = some pr) :
    journalStep l
      = [("fuzz_cov", pr.cov), ("fuzz_feat", pr.ft), ("fuzz_corp", pr.corp),
         ("fuzz_exec_s", pr.exec_s), ("fuzz_oom", pr.oom), ("fuzz_timeout", pr.timeout),
         ("fuzz_crash", pr.crash), ("fuzz_time", pr.time)]
    ∧ "fuzz_corp_size" ∉ (journalStep l).map Prod.fst := by
  have hj : journalStep l = journalPublish pr := by
    simp [journalStep, h]
  constructor
  · rw [hj]
    rfl
  · rw [hj]
    have hnames : (journalPublish pr).map Prod.fst
        = ["fuzz_cov", "fuzz_feat", "fuzz_corp", "fuzz_exec_s", "fuzz_oom",
           "fuzz_timeout", "fuzz_crash", "fuzz_time"] := rfl
    rw [hnames]
    decide

/-- C5 witness: instantiation at the documented example line. -/
theorem claim_C5_witness :
    fromLog exampleLineA = some ⟨2163, 20854, 2853, 0, 1464, 0, 0, 0, 56383⟩
    ∧ journalStep exampleLineA
        = [("fuzz_cov", 2163), ("fuzz_feat", 20854), ("fuzz_corp", 2853),
           ("fuzz_exec_s", 1464), ("fuzz_oom", 0), ("fuzz_timeout", 0),
           ("fuzz_crash", 0), ("fuzz_time", 56383)]
    ∧ "fuzz_corp_size" ∉ (journalStep exampleLineA).map Prod.fst := by
  have hp : fromLog exampleLineA = some ⟨2163, 20854, 2853, 0, 1464, 0, 0, 0, 56383⟩ := by
    decide
  have h := claim_C5 exampleLineA ⟨2163, 20854, 2853, 0, 1464, 0, 0, 0, 56383⟩ hp
  exact ⟨hp, h.1, h.2⟩

/-- C6: a line missing the `cov:` anchor or the `ft:` anchor is rejected by
both grammars (both parsers are total functions into `Option`, so neither can
raise), and the reader leaves its job record completely unchanged on every
line that does not parse. -/
theorem claim_C6 :
    (∀ l : List Char, (¬ covTok <:+: l) ∨ (¬ ftTok <:+: l) →
      fromLog l = none ∧ fromLogJob l = none)
    ∧ (∀ (j : JobStatus) (l : List Char), fromLogJob l = none → readerStep j l = j) := by
  constructor
  · intro l h
    constructor
    · cases hf : parse_fork_mode l with
      | none => simp [fromLog, hf, obind_none]
      | some x =>
        have ha := fork_anchors hf
        rcases h with h | h
        · exact absurd ha.1 h
        · exact absurd ha.2 h
    · cases hj : parse_job_mode l with
      | none => simp [fromLogJob, hj, obind_none]
      | some x =>
        have ha := job_anchors hj
        rcases h with h | h
        · exact absurd ha.1 h
        · exact absurd ha.2.1 h
  · intro j l h
    simp [readerStep, h]

/-- C6 witness: a line with no anchors and a line with `cov:` but no `ft:`
are both rejected, and the reader step keeps the record intact. -/
theorem claim_C6_witness :
    (fromLog (("INFO: seed corpus loaded").toList) = none
      ∧ fromLogJob (("INFO: seed corpus loaded").toList) = none)
    ∧ (fromLog (("#5 cov: 12 corp: 3 exec/s: 1").toList) = none
      ∧ fromLogJob (("#5 cov: 12 corp: 3 exec/s: 1").toList) = none)
    ∧ readerStep ⟨1, 2, 3, 4, 5⟩ (("INFO: seed corpus loaded").toList) = ⟨1, 2, 3, 4, 5⟩ := by
  refine ⟨claim_C6.1 _ (Or.inl (by decide)), claim_C6.1 _ (Or.inr (by decide)),
    claim_C6.2 ⟨1, 2, 3, 4, 5⟩ _ (by decide)⟩

/-- C9: with zero registered sources the aggregator tick publishes 0 for all
five reduced metrics (max and sum over the empty collection are 0). -/
theorem claim_C9 :
    tick [] = [("fuzz_cov", 0), ("fuzz_feat", 0), ("fuzz_corp", 0), ("fuzz_exec_s", 0),
      ("fuzz_corp_size", 0)] := by
  decide

/-- C10: the `fuzz_exec_s` reduction is u32 arithmetic — when the true sum of
exec_per_sec reaches 2^32 the published value is the sum modulo 2^32, not the
true sum — while every max-reduced metric equals one of the stored field
values and so can never exceed them. -/
theorem claim_C10 (jobs jobs2 : List JobStatus)
    (hsum : 4294967296 ≤ (jobs.map JobStatus.exec_s).sum) (hne : jobs2 ≠ []) :
    aggExec jobs = (jobs.map JobStatus.exec_s).sum % 4294967296
    ∧ aggExec jobs ≠ (jobs.map JobStatus.exec_s).sum
    ∧ aggCov jobs2 ∈ jobs2.map JobStatus.cov
    ∧ aggFt jobs2 ∈ jobs2.map JobStatus.ft
    ∧ aggCorp jobs2 ∈ jobs2.map JobStatus.corp
    ∧ aggCorpSize jobs2 ∈ jobs2.map JobStatus.corp_size := by
  have hmapne : ∀ f : JobStatus → Nat, jobs2.map f ≠ [] := by
    intro f hmap
    exact hne (List.map_eq_nil_iff.1 hmap)
  refine ⟨sumU32_eq _, ?_, maxOr0_mem _ (hmapne _), maxOr0_mem _ (hmapne _),
    maxOr0_mem _ (hmapne _), maxOr0_mem _ (hmapne _)⟩
  have heq : aggExec jobs = (jobs.map JobStatus.exec_s).sum % 4294967296 := sumU32_eq _
  rw [heq]
  intro hcontra
  have hlt : (jobs.map JobStatus.exec_s).sum % 4294967296 < 4294967296 :=
    Nat.mod_lt _ (by omega)
  omega

/-- C10 witness: exec values 2^31 and 2^31 + 5 publish 5, and with a single
record each max metric is the stored field value. -/
theorem claim_C10_witness :
    4294967296 ≤ (([⟨0, 0, 0, 2147483648, 0⟩, ⟨0, 0, 0, 2147483653, 0⟩] :
        List JobStatus).map JobStatus.exec_s).sum
    ∧ aggExec [⟨0, 0, 0, 2147483648, 0⟩, ⟨0, 0, 0, 2147483653, 0⟩]
        ≠ (([⟨0, 0, 0, 2147483648, 0⟩, ⟨0, 0, 0, 2147483653, 0⟩] :
            List JobStatus).map JobStatus.exec_s).sum
    ∧ aggExec [⟨0, 0, 0, 2147483648, 0⟩, ⟨0, 0, 0, 2147483653, 0⟩] = 5
    ∧ aggCov [(⟨7, 8, 9, 1, 11⟩ : JobStatus)]
        ∈ ([⟨7, 8, 9, 1, 11⟩] : List JobStatus).map JobStatus.cov := by
  have h := claim_C10 [⟨0, 0, 0, 2147483648, 0⟩, ⟨0, 0, 0, 2147483653, 0⟩]
    [⟨7, 8, 9, 1, 11⟩] (by decide) (by decide)
  exact ⟨by decide, h.2.1, by decide, h.2.2.1⟩
